import Mathlib

/-!
Verification of the session/authentication core of the qr-scanner-registry
repository (src/lib/auth.ts, src/middleware, the logout API route and the
Google OAuth callback in src/pages/api/auth/google.ts).

The TypeScript code is shallowly embedded:

* JavaScript epoch timestamps (`Date.now()`, `getTime()`) are natural numbers
  of milliseconds; the model covers the instants from the Unix epoch up to
  `9999-12-31T23:59:59.999Z` (4-digit ISO years), which contains every
  instant the code can see in production.
* `new Date(ms).toISOString()` is `isoOfMs`; parsing a string with
  `new Date(s)` is `parseISO`, which implements the ECMAScript date-time
  string format restricted to the exact shape `toISOString` emits
  (`YYYY-MM-DDTHH:MM:SS.sssZ`); every other string yields `none`,
  the model of an invalid date (`NaN`).
* JSON values are the inductive `JValue`; `JSON.stringify` is `renderJson`
  and `JSON.parse` is `parseJson` (a fueled recursive-descent parser for
  canonical texts: no insignificant whitespace, integer numerals).
  An uncaught JavaScript exception is modelled by `none` / `Except.error`.
* JavaScript `NaN`-propagating arithmetic on times is modelled by
  `Option Int` with `none` for `NaN`.
-/

set_option maxRecDepth 16000

namespace QrAuth

/-! ### Decimal digits -/

def digitChar (n : Nat) : Char :=
  match n with
  | 0 => '0' | 1 => '1' | 2 => '2' | 3 => '3' | 4 => '4'
  | 5 => '5' | 6 => '6' | 7 => '7' | 8 => '8' | _ => '9'

def digitVal (c : Char) : Option Nat :=
  if 48 <= c.toNat && c.toNat <= 57 then some (c.toNat - 48) else none

theorem digitVal_digitChar {n : Nat} (h : n < 10) : digitVal (digitChar n) = some n := by
  interval_cases n <;> rfl

/-! ### The Gregorian calendar, counted from the Unix epoch (1970-01-01).

ECMAScript defines `YearFromTime`/`MonthFromTime`/`DateFromTime`
mathematically: the year of an instant is the unique `y` with
`TimeFromYear y ≤ t < TimeFromYear (y+1)`.  `yearFromDays` computes it by
walking years upward from 1970, which is precisely that characterisation
made executable (fueled so that it reduces definitionally). -/

def isLeap (y : Nat) : Bool :=
  y % 4 == 0 && (y % 100 != 0 || y % 400 == 0)

def daysInYear (y : Nat) : Nat :=
  if isLeap y then 366 else 365

def monthLengths (leap : Bool) : List Nat :=
  [31, if leap then 29 else 28, 31, 30, 31, 30, 31, 31, 30, 31, 30, 31]

def daysInMonth (y m : Nat) : Nat :=
  (monthLengths (isLeap y)).getD (m - 1) 0

/-- Total days in the `n` consecutive years `y, y+1, ..., y+n-1`. -/
def yearDaysSum (y : Nat) : Nat → Nat
  | 0 => 0
  | n + 1 => daysInYear y + yearDaysSum (y + 1) n

/-- Walks years upward from `y`, consuming whole years out of the day
count `z`; returns the final year together with the day-of-year.
`fuel` only has to exceed the number of years walked. -/
def yearFromDays : Nat → Nat → Nat → Nat × Nat
  | 0, y, z => (y, z)
  | fuel + 1, y, z =>
    if z < daysInYear y then (y, z)
    else yearFromDays fuel (y + 1) (z - daysInYear y)

/-- Walks the month-length list, consuming whole months out of the
day-of-year `r`; returns the (1-based) month counted from `m` and the
1-based day of the month. -/
def monthFromDays : List Nat → Nat → Nat → Nat × Nat
  | [], m, r => (m, r + 1)
  | len :: rest, m, r =>
    if r < len then (m, r + 1)
    else monthFromDays rest (m + 1) (r - len)

theorem daysInYear_pos (y : Nat) : 365 ≤ daysInYear y := by
  unfold daysInYear; split <;> omega

theorem yearDaysSum_add (y a b : Nat) :
    yearDaysSum y (a + b) = yearDaysSum y a + yearDaysSum (y + a) b := by
  induction a generalizing y with
  | zero => simp [yearDaysSum]
  | succ a ih =>
    have : a + 1 + b = (a + b) + 1 := by omega
    rw [this]
    simp only [yearDaysSum]
    rw [ih (y + 1)]
    have : y + (a + 1) = y + 1 + a := by omega
    rw [this]
    omega

/-- Correctness of the year walk: given enough fuel, it peels off exactly
the years whose total length fits in `z` and leaves a day-of-year. -/
theorem yearFromDays_spec :
    ∀ (fuel y z : Nat), z < 365 * fuel →
      ∃ n r, yearFromDays fuel y z = (y + n, r) ∧
        z = yearDaysSum y n + r ∧ r < daysInYear (y + n)
  | 0, _, z, h => absurd h (by omega)
  | fuel + 1, y, z, h => by
    unfold yearFromDays
    by_cases hz : z < daysInYear y
    · exact ⟨0, z, by simp [hz], by simp [yearDaysSum], by simpa using hz⟩
    · have hy := daysInYear_pos y
      have hlt : z - daysInYear y < 365 * fuel := by omega
      obtain ⟨n, r, heq, hsum, hr⟩ := yearFromDays_spec fuel (y + 1) (z - daysInYear y) hlt
      refine ⟨n + 1, r, ?_, ?_, ?_⟩
      · simp only [if_neg hz]
        rw [heq]; congr 1; omega
      · simp only [yearDaysSum]; omega
      · have : y + (n + 1) = y + 1 + n := by omega
        rw [this]; exact hr

/-- Correctness of the month walk: for a day-of-year `r` inside the list's
total, it finds the month index `k` (so the month is `m + k`) and a
day-of-month between 1 and that month's length, and these determine `r`. -/
theorem monthFromDays_spec :
    ∀ (ls : List Nat) (m r : Nat), r < ls.sum →
      ∃ k d, monthFromDays ls m r = (m + k, d) ∧ k < ls.length ∧
        1 ≤ d ∧ d ≤ ls.getD k 0 ∧ (ls.take k).sum + (d - 1) = r
  | [], _, r, h => absurd h (by simp at h)
  | len :: rest, m, r, h => by
    unfold monthFromDays
    by_cases hr : r < len
    · refine ⟨0, r + 1, by simp [hr], by simp, by omega, ?_, by simp⟩
      simpa using hr
    · have hsum : r - len < rest.sum := by
        simp only [List.sum_cons] at h; omega
      obtain ⟨k, d, heq, hk, hd1, hd2, hacc⟩ := monthFromDays_spec rest (m + 1) (r - len) hsum
      refine ⟨k + 1, d, ?_, by simpa using hk, hd1, by simpa using hd2, ?_⟩
      · simp only [if_neg hr]
        rw [heq]; congr 1; omega
      · simp only [List.take_succ_cons, List.sum_cons]
        omega

/-! ### Rendering and parsing the `toISOString` format -/

def pad2 (n : Nat) : List Char := [digitChar (n / 10), digitChar (n % 10)]

def pad3 (n : Nat) : List Char :=
  [digitChar (n / 100), digitChar (n / 10 % 10), digitChar (n % 10)]

def pad4 (n : Nat) : List Char :=
  [digitChar (n / 1000), digitChar (n / 100 % 10), digitChar (n / 10 % 10), digitChar (n % 10)]

/-- Model of `new Date(ms).toISOString()` on the in-range instants
(milliseconds since the Unix epoch, year at most 9999):
`YYYY-MM-DDTHH:MM:SS.sssZ`. -/
def isoOfMs (t : Nat) : String :=
  let days := t / 86400000
  let rem := t % 86400000
  let yr := yearFromDays (days + 1) 1970 days
  let md := monthFromDays (monthLengths (isLeap yr.1)) 1 yr.2
  String.mk (pad4 yr.1 ++ '-' :: pad2 md.1 ++ '-' :: pad2 md.2 ++
    'T' :: pad2 (rem / 3600000) ++ ':' :: pad2 (rem % 3600000 / 60000) ++
    ':' :: pad2 (rem % 60000 / 1000) ++ '.' :: pad3 (rem % 1000) ++ ['Z'])

def expectC (c : Char) : List Char → Option (List Char)
  | x :: r => if x = c then some r else none
  | [] => none

def readDigit : List Char → Option (Nat × List Char)
  | x :: r =>
    match digitVal x with
    | some v => some (v, r)
    | none => none
  | [] => none

def read2 (cs : List Char) : Option (Nat × List Char) := do
  let (a, cs) ← readDigit cs
  let (b, cs) ← readDigit cs
  pure (10 * a + b, cs)

def read3 (cs : List Char) : Option (Nat × List Char) := do
  let (a, cs) ← readDigit cs
  let (bc, cs) ← read2 cs
  pure (100 * a + bc, cs)

def read4 (cs : List Char) : Option (Nat × List Char) := do
  let (ab, cs) ← read2 cs
  let (cd, cs) ← read2 cs
  pure (100 * ab + cd, cs)

/-- Days since the Unix epoch of a civil date `y-m-d` (year at least 1970,
`m` 1-based). -/
def daysFromCivil (y m d : Nat) : Nat :=
  yearDaysSum 1970 (y - 1970) + ((monthLengths (isLeap y)).take (m - 1)).sum + (d - 1)

/-- Model of parsing a date string with `new Date(s)` / `Date.parse`,
restricted to the exact `toISOString` shape; any other string is an
invalid date (`NaN`), modelled as `none`.  Out-of-range components are
rejected the way the ECMAScript date-time string grammar rejects them. -/
def readDatePart (cs : List Char) : Option ((Nat × Nat × Nat) × List Char) := do
  let (y, cs) ← read4 cs
  let cs ← expectC '-' cs
  let (mo, cs) ← read2 cs
  let cs ← expectC '-' cs
  let (d, cs) ← read2 cs
  pure ((y, mo, d), cs)

def readTimePart (cs : List Char) : Option ((Nat × Nat × Nat × Nat) × List Char) := do
  let (h, cs) ← read2 cs
  let cs ← expectC ':' cs
  let (mi, cs) ← read2 cs
  let cs ← expectC ':' cs
  let (sec, cs) ← read2 cs
  let cs ← expectC '.' cs
  let (ms, cs) ← read3 cs
  pure ((h, mi, sec, ms), cs)

/-- Model of parsing a date string with `new Date(s)` / `Date.parse`,
restricted to the exact `toISOString` shape; any other string is an
invalid date (`NaN`), modelled as `none`.  Out-of-range components are
rejected the way the ECMAScript date-time string grammar rejects them. -/
def parseISO (s : String) : Option Nat := do
  let (ymd, cs) ← readDatePart s.data
  let cs ← expectC 'T' cs
  let (hms, cs) ← readTimePart cs
  let cs ← expectC 'Z' cs
  match cs with
  | _ :: _ => none
  | [] =>
    if 1970 ≤ ymd.1 ∧ 1 ≤ ymd.2.1 ∧ ymd.2.1 ≤ 12 ∧ 1 ≤ ymd.2.2 ∧
        ymd.2.2 ≤ daysInMonth ymd.1 ymd.2.1 ∧
        hms.1 ≤ 23 ∧ hms.2.1 ≤ 59 ∧ hms.2.2.1 ≤ 59 then
      pure (daysFromCivil ymd.1 ymd.2.1 ymd.2.2 * 86400000 + hms.1 * 3600000 +
        hms.2.1 * 60000 + hms.2.2.1 * 1000 + hms.2.2.2)
    else none

theorem expectC_cons (c : Char) (rest : List Char) : expectC c (c :: rest) = some rest := by
  simp [expectC]

theorem readDigit_cons {k : Nat} (h : k < 10) (rest : List Char) :
    readDigit (digitChar k :: rest) = some (k, rest) := by
  simp [readDigit, digitVal_digitChar h]

theorem read2_pad2 {n : Nat} (h : n < 100) (rest : List Char) :
    read2 (pad2 n ++ rest) = some (n, rest) := by
  have h1 : n / 10 < 10 := by omega
  have h2 : n % 10 < 10 := by omega
  have hn : 10 * (n / 10) + n % 10 = n := by omega
  simp [read2, pad2, readDigit_cons h1, readDigit_cons h2, hn]

theorem pad3_eq (n : Nat) : pad3 n = digitChar (n / 100) :: pad2 (n % 100) := by
  have e1 : n / 10 % 10 = n % 100 / 10 := by omega
  have e2 : n % 10 = n % 100 % 10 := by omega
  simp [pad3, pad2, e1, e2]

theorem pad4_eq (n : Nat) : pad4 n = pad2 (n / 100) ++ pad2 (n % 100) := by
  have e0 : n / 1000 = n / 100 / 10 := by omega
  have e1 : n / 100 % 10 = n / 100 % 10 := rfl
  have e2 : n / 10 % 10 = n % 100 / 10 := by omega
  have e3 : n % 10 = n % 100 % 10 := by omega
  simp [pad4, pad2, e0, e2, e3]

theorem read3_pad3 {n : Nat} (h : n < 1000) (rest : List Char) :
    read3 (pad3 n ++ rest) = some (n, rest) := by
  have h1 : n / 100 < 10 := by omega
  have h2 : n % 100 < 100 := by omega
  have hn : 100 * (n / 100) + n % 100 = n := by omega
  rw [pad3_eq]
  simp [read3, readDigit_cons h1, read2_pad2 h2, hn]

theorem read4_pad4 {n : Nat} (h : n < 10000) (rest : List Char) :
    read4 (pad4 n ++ rest) = some (n, rest) := by
  have h1 : n / 100 < 100 := by omega
  have h2 : n % 100 < 100 := by omega
  have hn : 100 * (n / 100) + n % 100 = n := by omega
  rw [pad4_eq, List.append_assoc]
  simp [read4, read2_pad2 h1, read2_pad2 h2, hn]

theorem readDatePart_render {y mo d : Nat} (hy : y < 10000) (hmo : mo < 100) (hd : d < 100)
    (rest : List Char) :
    readDatePart (pad4 y ++ '-' :: (pad2 mo ++ '-' :: (pad2 d ++ rest))) =
      some ((y, mo, d), rest) := by
  simp [readDatePart, read4_pad4 hy, expectC_cons, read2_pad2 hmo, read2_pad2 hd]

theorem readTimePart_render {h mi sec ms : Nat} (hh : h < 100) (hmi : mi < 100)
    (hsec : sec < 100) (hms : ms < 1000) (rest : List Char) :
    readTimePart (pad2 h ++ ':' :: (pad2 mi ++ ':' :: (pad2 sec ++ '.' :: (pad3 ms ++ rest)))) =
      some ((h, mi, sec, ms), rest) := by
  simp [readTimePart, read2_pad2 hh, expectC_cons, read2_pad2 hmi, read2_pad2 hsec,
    read3_pad3 hms]

theorem isLeap_add_400 (y : Nat) : isLeap (y + 400) = isLeap y := by
  have h4 : (y + 400) % 4 = y % 4 := by omega
  have h100 : (y + 400) % 100 = y % 100 := by omega
  have h400 : (y + 400) % 400 = y % 400 := by omega
  simp [isLeap, h4, h100, h400]

theorem daysInYear_add_400 (y : Nat) : daysInYear (y + 400) = daysInYear y := by
  simp [daysInYear, isLeap_add_400]

theorem yearDaysSum_add_400 : ∀ (n y : Nat), yearDaysSum (y + 400) n = yearDaysSum y n
  | 0, _ => rfl
  | n + 1, y => by
    simp only [yearDaysSum, daysInYear_add_400]
    have h : y + 400 + 1 = y + 1 + 400 := by omega
    rw [h, yearDaysSum_add_400 n (y + 1)]

theorem yearDaysSum_add_400_mul : ∀ (k n y : Nat), yearDaysSum (y + 400 * k) n = yearDaysSum y n
  | 0, _, y => by simp
  | k + 1, n, y => by
    have h : y + 400 * (k + 1) = y + 400 * k + 400 := by omega
    rw [h, yearDaysSum_add_400, yearDaysSum_add_400_mul k]

set_option maxRecDepth 4000 in
theorem yearDaysSum_1970_400 : yearDaysSum 1970 400 = 146097 := by decide

theorem yearDaysSum_1970_30 : yearDaysSum 1970 30 = 10957 := by decide

theorem yearDaysSum_1970_8030 : yearDaysSum 1970 8030 = 2932897 := by
  have hcyc : ∀ k, yearDaysSum 1970 (400 * k) = 146097 * k := by
    intro k
    induction k with
    | zero => rfl
    | succ k ih =>
      have h : 400 * (k + 1) = 400 * k + 400 := by omega
      rw [h, yearDaysSum_add 1970 (400 * k) 400, ih, yearDaysSum_add_400_mul k 400 1970,
        yearDaysSum_1970_400]
      omega
  have hsplit : yearDaysSum 1970 8030 = yearDaysSum 1970 8000 + yearDaysSum 9970 30 := by
    have h := yearDaysSum_add 1970 8000 30
    norm_num at h
    exact h
  have h8000 : yearDaysSum 1970 8000 = 2921940 := by
    have h := hcyc 20
    norm_num at h
    exact h
  have h9970 : yearDaysSum 9970 30 = 10957 := by
    have h := yearDaysSum_add_400_mul 20 30 1970
    norm_num at h
    rw [h]
    exact yearDaysSum_1970_30
  omega

theorem monthLengths_sum (y : Nat) : (monthLengths (isLeap y)).sum = daysInYear y := by
  cases h : isLeap y <;> simp [daysInYear, h, monthLengths]

theorem monthLengths_length (l : Bool) : (monthLengths l).length = 12 := by
  cases l <;> rfl

theorem monthLengths_getD_le (l : Bool) {k : Nat} (h : k < 12) :
    (monthLengths l).getD k 0 ≤ 31 := by
  cases l <;> interval_cases k <;> simp [monthLengths]

/-- The date-string round trip of the platform: formatting an in-range
instant with `toISOString` and parsing the result back recovers the
instant exactly. -/
theorem parseISO_isoOfMs {t : Nat} (ht : t ≤ 253402300799999) :
    parseISO (isoOfMs t) = some t := by
  obtain ⟨n, r, hyr, hsum, hr⟩ :=
    yearFromDays_spec (t / 86400000 + 1) 1970 (t / 86400000) (by omega)
  have hdb : t / 86400000 ≤ 2932896 := by omega
  have hn : n ≤ 8029 := by
    by_contra hcon
    push_neg at hcon
    have h1 := yearDaysSum_add 1970 8030 (n - 8030)
    have h2 : 8030 + (n - 8030) = n := by omega
    rw [h2, yearDaysSum_1970_8030] at h1
    omega
  have hrm : r < (monthLengths (isLeap (1970 + n))).sum := by
    rw [monthLengths_sum]
    exact hr
  obtain ⟨k, d, hmd, hk, hd1, hd2, hacc⟩ :=
    monthFromDays_spec (monthLengths (isLeap (1970 + n))) 1 r hrm
  rw [monthLengths_length] at hk
  have hy4 : 1970 + n < 10000 := by omega
  have hmo : 1 + k < 100 := by omega
  have hdlt : d < 100 := by
    have := monthLengths_getD_le (isLeap (1970 + n)) hk
    omega
  have hh : t % 86400000 / 3600000 < 100 := by omega
  have hmi : t % 86400000 % 3600000 / 60000 < 100 := by omega
  have hsec : t % 86400000 % 60000 / 1000 < 100 := by omega
  have hms : t % 86400000 % 1000 < 1000 := by omega
  simp only [isoOfMs]
  rw [hyr]
  dsimp only
  rw [hmd]
  dsimp only
  simp only [parseISO, List.cons_append, List.append_assoc]
  rw [readDatePart_render hy4 hmo hdlt]
  simp only [Option.bind_eq_bind, Option.some_bind]
  rw [expectC_cons]
  simp only [Option.some_bind]
  rw [readTimePart_render hh hmi hsec hms]
  simp only [Option.some_bind]
  rw [expectC_cons]
  simp only [Option.some_bind]
  have hcond : 1970 ≤ 1970 + n ∧ 1 ≤ 1 + k ∧ 1 + k ≤ 12 ∧ 1 ≤ d ∧
      d ≤ daysInMonth (1970 + n) (1 + k) ∧
      t % 86400000 / 3600000 ≤ 23 ∧ t % 86400000 % 3600000 / 60000 ≤ 59 ∧
      t % 86400000 % 60000 / 1000 ≤ 59 := by
    refine ⟨by omega, by omega, by omega, hd1, ?_, by omega, by omega, by omega⟩
    unfold daysInMonth
    have hk1 : 1 + k - 1 = k := by omega
    rw [hk1]
    exact hd2
  rw [if_pos hcond]
  have hciv : daysFromCivil (1970 + n) (1 + k) d = t / 86400000 := by
    unfold daysFromCivil
    have hk1 : 1 + k - 1 = k := by omega
    have hn1 : 1970 + n - 1970 = n := by omega
    rw [hk1, hn1]
    omega
  rw [hciv]
  have hfin : t / 86400000 * 86400000 + t % 86400000 / 3600000 * 3600000 +
      t % 86400000 % 3600000 / 60000 * 60000 + t % 86400000 % 60000 / 1000 * 1000 +
      t % 86400000 % 1000 = t := by omega
  rw [hfin]
  rfl

/-! ### JSON values

`JValue` models the JavaScript values `JSON.parse` can produce.
`JSON.stringify` is `renderJson`; `JSON.parse` is `parseJson`, a fueled
recursive-descent parser.  The model covers canonical JSON texts (no
insignificant whitespace, integer numerals); a JavaScript exception from
`JSON.parse` is modelled by `none`. -/

inductive JValue where
  | null
  | bool (b : Bool)
  | num (n : Int)
  | str (s : String)
  | arr (elems : List JValue)
  | obj (fields : List (String × JValue))
deriving Repr

/-- JavaScript truthiness of a JSON value. -/
def jTruthy : JValue → Bool
  | .null => false
  | .bool b => b
  | .num n => n != 0
  | .str s => s != ""
  | .arr _ => true
  | .obj _ => true

/-- JS property lookup among an object's fields; `none` models `undefined`.
`JSON.parse` keeps the last binding of a repeated key, so lookup takes the
last match. -/
def lookupLast : List (String × JValue) → String → Option JValue
  | [], _ => none
  | (k, v) :: rest, key =>
    match lookupLast rest key with
    | some r => some r
    | none => if k = key then some v else none

/-- JS property access `x[key]`; `none` models `undefined` (access on a
non-object, or a missing key).  The code only performs such accesses behind
a truthiness guard, so access on `null`/`undefined` never occurs. -/
def jGet : JValue → String → Option JValue
  | .obj fs, key => lookupLast fs key
  | _, _ => none

def hexChar (n : Nat) : Char :=
  match n with
  | 10 => 'a' | 11 => 'b' | 12 => 'c' | 13 => 'd' | 14 => 'e' | 15 => 'f'
  | _ => digitChar n

def hexVal (c : Char) : Option Nat :=
  match c with
  | 'a' => some 10 | 'b' => some 11 | 'c' => some 12
  | 'd' => some 13 | 'e' => some 14 | 'f' => some 15
  | 'A' => some 10 | 'B' => some 11 | 'C' => some 12
  | 'D' => some 13 | 'E' => some 14 | 'F' => some 15
  | _ => digitVal c

/-- The escaping `JSON.stringify` applies inside a string literal. -/
def escapeChar (c : Char) : List Char :=
  if c = '"' then ['\\', '"']
  else if c = '\\' then ['\\', '\\']
  else if c = '\x08' then ['\\', 'b']
  else if c = '\t' then ['\\', 't']
  else if c = '\n' then ['\\', 'n']
  else if c = '\x0c' then ['\\', 'f']
  else if c = '\r' then ['\\', 'r']
  else if c.toNat < 32 then ['\\', 'u', '0', '0', hexChar (c.toNat / 16), hexChar (c.toNat % 16)]
  else [c]

def escBody : List Char → List Char
  | [] => []
  | c :: rest => escapeChar c ++ escBody rest

/-- The characters of the three JSON keyword literals. -/
def litNull : List Char := ['n', 'u', 'l', 'l']

def litTrue : List Char := ['t', 'r', 'u', 'e']

def litFalse : List Char := ['f', 'a', 'l', 's', 'e']

mutual

/-- Model of `JSON.stringify` (object keys in insertion order, compact
output, which is what the default `JSON.stringify` emits). -/
def renderJ : JValue → List Char
  | .null => litNull
  | .bool true => litTrue
  | .bool false => litFalse
  | .num n => (toString n).data
  | .str s => '"' :: escBody s.data ++ ['"']
  | .arr xs => '[' :: renderElems xs ++ [']']
  | .obj fs => '{' :: renderFields fs ++ ['}']

def renderElems : List JValue → List Char
  | [] => []
  | [x] => renderJ x
  | x :: xs => renderJ x ++ ',' :: renderElems xs

def renderFields : List (String × JValue) → List Char
  | [] => []
  | [(k, v)] => '"' :: escBody k.data ++ '"' :: ':' :: renderJ v
  | (k, v) :: fs => ('"' :: escBody k.data ++ '"' :: ':' :: renderJ v) ++ ',' :: renderFields fs

end

def renderJson (v : JValue) : String := String.mk (renderJ v)

/-- Decodes one single-character escape (the character after the
backslash). -/
def escCharOf (e : Char) : Option Char :=
  if e = '"' then some '"'
  else if e = '\\' then some '\\'
  else if e = '/' then some '/'
  else if e = 'b' then some '\x08'
  else if e = 't' then some '\t'
  else if e = 'n' then some '\n'
  else if e = 'f' then some '\x0c'
  else if e = 'r' then some '\r'
  else none

/-- Reads the body of a JSON string literal (the opening quote already
consumed), undoing `escapeChar`; stops at the closing quote. -/
def parseStrBody : List Char → Option (List Char × List Char)
  | [] => none
  | c :: rest =>
    if c = '"' then some ([], rest)
    else if c = '\\' then
      match rest with
      | [] => none
      | e :: r =>
        if e = 'u' then
          match r with
          | h1 :: h2 :: h3 :: h4 :: r2 =>
            match hexVal h1, hexVal h2, hexVal h3, hexVal h4 with
            | some a, some b, some cc, some d =>
              (parseStrBody r2).map
                (fun p => (Char.ofNat (4096 * a + 256 * b + 16 * cc + d) :: p.1, p.2))
            | _, _, _, _ => none
          | _ => none
        else
          match escCharOf e with
          | some ch => (parseStrBody r).map (fun p => (ch :: p.1, p.2))
          | none => none
    else (parseStrBody rest).map (fun p => (c :: p.1, p.2))

/-- Consumes leading decimal digits, extending the accumulator. -/
def readDigits : List Char → Nat → Nat × List Char
  | c :: rest, acc =>
    match digitVal c with
    | some v => readDigits rest (10 * acc + v)
    | none => (acc, c :: rest)
  | [], acc => (acc, [])

/-- Reads a JSON integer numeral (optional minus, then digits). -/
def parseNum : List Char → Option (Int × List Char)
  | '-' :: c :: rest =>
    match digitVal c with
    | some v =>
      match readDigits rest v with
      | (n, rest2) => some (-(n : Int), rest2)
    | none => none
  | c :: rest =>
    match digitVal c with
    | some v =>
      match readDigits rest v with
      | (n, rest2) => some ((n : Int), rest2)
    | none => none
  | [] => none

def expectChars : List Char → List Char → Option (List Char)
  | [], cs => some cs
  | e :: es, c :: cs => if c = e then expectChars es cs else none
  | _ :: _, [] => none

/-- Comma-separated JSON values terminated by `]` (at least one element). -/
def parseElemsAux (pv : List Char → Option (JValue × List Char)) :
    Nat → List Char → Option (List JValue × List Char)
  | 0, _ => none
  | fuel + 1, cs =>
    match pv cs with
    | none => none
    | some (v, rest) =>
      match rest with
      | [] => none
      | s :: rest2 =>
        if s = ',' then
          match parseElemsAux pv fuel rest2 with
          | some (vs, rest3) => some (v :: vs, rest3)
          | none => none
        else if s = ']' then some ([v], rest2)
        else none

/-- Comma-separated `"key":value` fields terminated by `}` (at least one
field). -/
def parseFieldsAux (pv : List Char → Option (JValue × List Char)) :
    Nat → List Char → Option (List (String × JValue) × List Char)
  | 0, _ => none
  | fuel + 1, cs =>
    match cs with
    | [] => none
    | q :: cs1 =>
      if q = '"' then
        match parseStrBody cs1 with
        | some (kcs, cs2) =>
          match cs2 with
          | [] => none
          | col :: cs3 =>
            if col = ':' then
              match pv cs3 with
              | some (v, cs4) =>
                match cs4 with
                | [] => none
                | s :: cs5 =>
                  if s = ',' then
                    match parseFieldsAux pv fuel cs5 with
                    | some (fs, cs6) => some ((String.mk kcs, v) :: fs, cs6)
                    | none => none
                  else if s = '}' then some ([(String.mk kcs, v)], cs5)
                  else none
              | none => none
            else none
        | none => none
      else none

def parseArr (pv : List Char → Option (JValue × List Char)) (fuel : Nat) :
    List Char → Option (List JValue × List Char)
  | [] => none
  | c :: rest => if c = ']' then some ([], rest) else parseElemsAux pv fuel (c :: rest)

def parseObj (pv : List Char → Option (JValue × List Char)) (fuel : Nat) :
    List Char → Option (List (String × JValue) × List Char)
  | [] => none
  | c :: rest => if c = '}' then some ([], rest) else parseFieldsAux pv fuel (c :: rest)

/-- The JSON value grammar, fueled.  Dispatches on the first character the
way a recursive-descent `JSON.parse` does. -/
def parseVal : Nat → List Char → Option (JValue × List Char)
  | 0, _ => none
  | fuel + 1, cs =>
    match cs with
    | [] => none
    | c :: rest =>
      if c = 'n' then (expectChars ['u', 'l', 'l'] rest).map (fun r => (JValue.null, r))
      else if c = 't' then (expectChars ['r', 'u', 'e'] rest).map (fun r => (JValue.bool true, r))
      else if c = 'f' then (expectChars ['a', 'l', 's', 'e'] rest).map (fun r => (JValue.bool false, r))
      else if c = '"' then (parseStrBody rest).map (fun p => (JValue.str (String.mk p.1), p.2))
      else if c = '[' then
        (parseArr (fun cs2 => parseVal fuel cs2) fuel rest).map (fun p => (JValue.arr p.1, p.2))
      else if c = '{' then
        (parseObj (fun cs2 => parseVal fuel cs2) fuel rest).map (fun p => (JValue.obj p.1, p.2))
      else (parseNum (c :: rest)).map (fun p => (JValue.num p.1, p.2))

/-- Model of `JSON.parse`: the whole text must be consumed, and a parse
error (a JavaScript `SyntaxError`) is `none`. -/
def parseJson (s : String) : Option JValue :=
  match parseVal (s.data.length + 1) s.data with
  | some (v, []) => some v
  | _ => none

theorem hexVal_hexChar {n : Nat} (h : n < 16) : hexVal (hexChar n) = some n := by
  interval_cases n <;> rfl

theorem hexVal_zero : hexVal '0' = some 0 := rfl

theorem parseStrBody_cons_plain {c : Char} (h1 : c ≠ '"') (h2 : c ≠ '\\') (cs : List Char) :
    parseStrBody (c :: cs) = (parseStrBody cs).map (fun p => (c :: p.1, p.2)) := by
  rw [parseStrBody.eq_def]
  simp only [if_neg h1, if_neg h2]

/-- The string-literal round trip: reading back an escaped string body,
followed by its closing quote, recovers the original characters. -/
theorem parseStrBody_escBody : ∀ (cs rest : List Char),
    parseStrBody (escBody cs ++ '"' :: rest) = some (cs, rest)
  | [], rest => by
    simp only [escBody, List.nil_append]
    rw [parseStrBody.eq_def]
    simp
  | c :: cs, rest => by
    have ih := parseStrBody_escBody cs rest
    simp only [escBody, List.append_assoc]
    by_cases hq : c = '"'
    · subst hq
      have he : escapeChar '"' = ['\\', '"'] := by simp [escapeChar]
      rw [he]
      simp only [List.cons_append, List.nil_append]
      rw [parseStrBody.eq_def]
      simp [escCharOf, ih]
    · by_cases hb : c = '\\'
      · subst hb
        have he : escapeChar '\\' = ['\\', '\\'] := by simp [escapeChar]
        rw [he]
        simp only [List.cons_append, List.nil_append]
        rw [parseStrBody.eq_def]
        simp [escCharOf, ih]
      · by_cases h08 : c = '\x08'
        · subst h08
          have he : escapeChar '\x08' = ['\\', 'b'] := by simp [escapeChar]
          rw [he]
          simp only [List.cons_append, List.nil_append]
          rw [parseStrBody.eq_def]
          simp [escCharOf, ih]
        · by_cases h09 : c = '\t'
          · subst h09
            have he : escapeChar '\t' = ['\\', 't'] := by simp [escapeChar]
            rw [he]
            simp only [List.cons_append, List.nil_append]
            rw [parseStrBody.eq_def]
            simp [escCharOf, ih]
          · by_cases h0a : c = '\n'
            · subst h0a
              have he : escapeChar '\n' = ['\\', 'n'] := by simp [escapeChar]
              rw [he]
              simp only [List.cons_append, List.nil_append]
              rw [parseStrBody.eq_def]
              simp [escCharOf, ih]
            · by_cases h0c : c = '\x0c'
              · subst h0c
                have he : escapeChar '\x0c' = ['\\', 'f'] := by simp [escapeChar]
                rw [he]
                simp only [List.cons_append, List.nil_append]
                rw [parseStrBody.eq_def]
                simp [escCharOf, ih]
              · by_cases h0d : c = '\r'
                · subst h0d
                  have he : escapeChar '\r' = ['\\', 'r'] := by simp [escapeChar]
                  rw [he]
                  simp only [List.cons_append, List.nil_append]
                  rw [parseStrBody.eq_def]
                  simp [escCharOf, ih]
                · by_cases hctl : c.toNat < 32
                  · have ha : c.toNat / 16 < 16 := by omega
                    have hbv : c.toNat % 16 < 16 := by omega
                    have hv : 16 * (c.toNat / 16) + c.toNat % 16 = c.toNat := by omega
                    simp only [escapeChar, if_neg hq, if_neg hb, if_neg h08, if_neg h09,
                      if_neg h0a, if_neg h0c, if_neg h0d, if_pos hctl]
                    simp only [List.cons_append, List.nil_append]
                    rw [parseStrBody.eq_def]
                    simp [hexVal_zero, hexVal_hexChar ha, hexVal_hexChar hbv, ih, hv,
                      Char.ofNat_toNat]
                  · simp only [escapeChar, if_neg hq, if_neg hb, if_neg h08, if_neg h09,
                      if_neg h0a, if_neg h0c, if_neg h0d, if_neg hctl]
                    simp only [List.cons_append, List.nil_append]
                    rw [parseStrBody_cons_plain hq hb, ih]
                    rfl

mutual

/-- Node count of a JSON value (used as a fuel bound). -/
def jsize : JValue → Nat
  | .null => 1
  | .bool _ => 1
  | .num _ => 1
  | .str _ => 1
  | .arr xs => 1 + jsizeL xs
  | .obj fs => 1 + jsizeF fs

def jsizeL : List JValue → Nat
  | [] => 0
  | x :: xs => jsize x + 1 + jsizeL xs

def jsizeF : List (String × JValue) → Nat
  | [] => 0
  | f :: fs => jsize f.2 + 1 + jsizeF fs

end

mutual

/-- JSON values built from objects, strings, booleans and null — the shape
of every session payload the code serializes (no numbers, no arrays). -/
def textualJ : JValue → Bool
  | .null => true
  | .bool _ => true
  | .str _ => true
  | .num _ => false
  | .arr _ => false
  | .obj fs => textualF fs

def textualF : List (String × JValue) → Bool
  | [] => true
  | f :: fs => textualJ f.2 && textualF fs

end

theorem jsize_pos (v : JValue) : 1 ≤ jsize v := by
  cases v <;> simp only [jsize] <;> omega

theorem jsizeF_mem : ∀ {fs : List (String × JValue)} {p : String × JValue},
    p ∈ fs → jsize p.2 + 1 ≤ jsizeF fs
  | f :: fs, p, h => by
    rcases List.mem_cons.mp h with h1 | h2
    · subst h1
      simp only [jsizeF]
      omega
    · have := jsizeF_mem h2
      simp only [jsizeF]
      omega

theorem length_le_jsizeF : ∀ (fs : List (String × JValue)), fs.length ≤ jsizeF fs
  | [] => by simp [jsizeF]
  | f :: fs => by
    have := length_le_jsizeF fs
    have := jsize_pos f.2
    simp only [jsizeF, List.length_cons]
    omega

theorem textualF_mem : ∀ {fs : List (String × JValue)} {p : String × JValue},
    textualF fs = true → p ∈ fs → textualJ p.2 = true
  | f :: fs, p, ht, h => by
    simp only [textualF, Bool.and_eq_true] at ht
    rcases List.mem_cons.mp h with h1 | h2
    · subst h1
      exact ht.1
    · exact textualF_mem ht.2 h2

theorem renderFields_head (k : String) (v : JValue) (fs : List (String × JValue)) :
    ∃ T, renderFields ((k, v) :: fs) = '"' :: T := by
  cases fs with
  | nil => exact ⟨escBody k.data ++ '"' :: ':' :: renderJ v, by simp [renderFields]⟩
  | cons f1 fs' =>
    exact ⟨(escBody k.data ++ '"' :: ':' :: renderJ v) ++ ',' :: renderFields (f1 :: fs'),
      by simp [renderFields]⟩

/-- Completeness of the field-list parser on rendered fields: given a value
parser that is complete on every field value, reading back the rendered
fields followed by `}` recovers them. -/
theorem parseFieldsAux_complete (pv : List Char → Option (JValue × List Char)) :
    ∀ (fs : List (String × JValue)) (fuel : Nat) (rest : List Char),
      fs ≠ [] →
      (∀ p ∈ fs, ∀ r, pv (renderJ p.2 ++ r) = some (p.2, r)) →
      fs.length ≤ fuel →
      parseFieldsAux pv fuel (renderFields fs ++ '}' :: rest) = some (fs, rest)
  | [], _, _, hne, _, _ => absurd rfl hne
  | [(k, v)], fuel, rest, _, hpv, hlen => by
    cases fuel with
    | zero => simp at hlen
    | succ f =>
      have hv := hpv (k, v) (by simp) ('}' :: rest)
      rw [parseFieldsAux.eq_def]
      simp only [renderFields, List.cons_append, List.nil_append, List.append_assoc]
      simp [parseStrBody_escBody, hv]
  | (k, v) :: (f1 :: fs'), fuel, rest, _, hpv, hlen => by
    cases fuel with
    | zero => simp at hlen
    | succ f =>
      have hv := hpv (k, v) (by simp) (',' :: (renderFields (f1 :: fs') ++ '}' :: rest))
      have ihyp : parseFieldsAux pv f (renderFields (f1 :: fs') ++ '}' :: rest) =
          some (f1 :: fs', rest) := by
        apply parseFieldsAux_complete pv (f1 :: fs') f rest (by simp)
        · intro p hp r
          exact hpv p (List.mem_cons_of_mem _ hp) r
        · simp only [List.length_cons] at hlen ⊢
          omega
      rw [parseFieldsAux.eq_def]
      simp only [renderFields, List.cons_append, List.nil_append, List.append_assoc]
      simp [parseStrBody_escBody, hv, ihyp]

/-- Completeness of the value parser on rendered textual values: with fuel
at least the node count, reading back `renderJ v` recovers `v` and leaves
the rest of the input untouched. -/
theorem parseVal_complete :
    ∀ (N : Nat) (v : JValue) (fuel : Nat) (rest : List Char),
      jsize v ≤ N → textualJ v = true → jsize v ≤ fuel →
      parseVal fuel (renderJ v ++ rest) = some (v, rest)
  | 0, v, _, _, hN, _, _ => by
    have := jsize_pos v
    omega
  | N + 1, v, fuel, rest, hN, htx, hfuel => by
    have hvp := jsize_pos v
    cases fuel with
    | zero => omega
    | succ f =>
      cases v with
      | null =>
        rw [parseVal.eq_def]
        simp only [renderJ, litNull, List.cons_append, List.nil_append]
        simp [expectChars]
      | bool b =>
        cases b <;>
        · rw [parseVal.eq_def]
          simp only [renderJ, litTrue, litFalse, List.cons_append, List.nil_append]
          simp [expectChars]
      | num n => simp [textualJ] at htx
      | arr xs => simp [textualJ] at htx
      | str s =>
        rw [parseVal.eq_def]
        simp only [renderJ, List.cons_append, List.nil_append, List.append_assoc]
        simp [parseStrBody_escBody]
      | obj fs =>
        rw [parseVal.eq_def]
        simp only [renderJ, List.cons_append, List.nil_append, List.append_assoc]
        cases fs with
        | nil =>
          simp only [renderFields, List.nil_append]
          simp [parseObj]
        | cons f0 fs' =>
          have hops : parseObj (fun cs2 => parseVal f cs2) f
              (renderFields (f0 :: fs') ++ '}' :: rest) = some (f0 :: fs', rest) := by
            obtain ⟨T, hT⟩ := renderFields_head f0.1 f0.2 fs'
            have hfsz : jsizeF (f0 :: fs') ≤ f := by
              simp only [jsize] at hfuel
              omega
            have happ : parseFieldsAux (fun cs2 => parseVal f cs2) f
                (renderFields (f0 :: fs') ++ '}' :: rest) = some (f0 :: fs', rest) := by
              apply parseFieldsAux_complete
              · simp
              · intro p hp r
                apply parseVal_complete N p.2 f r
                · have := jsizeF_mem hp
                  simp only [jsize] at hN
                  omega
                · have : textualF (f0 :: fs') = true := by
                    simpa [textualJ] using htx
                  exact textualF_mem this hp
                · have := jsizeF_mem hp
                  omega
              · have := length_le_jsizeF (f0 :: fs')
                omega
            rw [hT] at happ ⊢
            rw [parseObj.eq_def]
            simp only [List.cons_append]
            simp only [List.cons_append] at happ
            simp [happ]
          rw [show (f0 :: fs' : List (String × JValue)) = f0 :: fs' from rfl] at hops
          simp [hops]

theorem renderFields_length_aux :
    ∀ (fs : List (String × JValue)),
      (∀ p ∈ fs, jsize p.2 ≤ (renderJ p.2).length) →
      jsizeF fs ≤ (renderFields fs).length + 1
  | [], _ => by simp [jsizeF, renderFields]
  | [(k, v)], hv => by
    have h : jsize v ≤ (renderJ v).length := hv (k, v) (by simp)
    simp only [jsizeF, jsizeF.eq_1, renderFields, List.length_cons, List.length_append]
    omega
  | (k, v) :: (f1 :: fs'), hv => by
    have h : jsize v ≤ (renderJ v).length := hv (k, v) (by simp)
    have ih := renderFields_length_aux (f1 :: fs')
      (fun p hp => hv p (List.mem_cons_of_mem _ hp))
    simp only [jsizeF, renderFields, List.length_cons, List.length_append] at ih ⊢
    omega

/-- A textual value's node count is bounded by its rendered length. -/
theorem renderJ_length :
    ∀ (N : Nat) (v : JValue), jsize v ≤ N → textualJ v = true →
      jsize v ≤ (renderJ v).length
  | 0, v, hN, _ => by
    have := jsize_pos v
    omega
  | N + 1, v, hN, htx => by
    cases v with
    | null => simp [jsize, renderJ, litNull]
    | bool b => cases b <;> simp [jsize, renderJ, litTrue, litFalse]
    | num n => simp [textualJ] at htx
    | arr xs => simp [textualJ] at htx
    | str s => simp [jsize, renderJ]
    | obj fs =>
      have hfl : ∀ p ∈ fs, jsize p.2 ≤ (renderJ p.2).length := by
        intro p hp
        apply renderJ_length N p.2
        · have := jsizeF_mem hp
          simp only [jsize] at hN
          omega
        · have htf : textualF fs = true := by simpa [textualJ] using htx
          exact textualF_mem htf hp
      have := renderFields_length_aux fs hfl
      simp only [jsize, renderJ, List.length_cons, List.length_append]
      omega

/-- The `JSON.stringify`/`JSON.parse` round trip on the textual values the
code serializes. -/
theorem parseJson_renderJson {v : JValue} (htx : textualJ v = true) :
    parseJson (renderJson v) = some v := by
  unfold parseJson renderJson
  have hlen : jsize v ≤ (renderJ v).length + 1 :=
    le_trans (renderJ_length (jsize v) v le_rfl htx) (Nat.le_succ _)
  have h := parseVal_complete (jsize v) v ((renderJ v).length + 1) [] le_rfl htx hlen
  rw [List.append_nil] at h
  rw [show (String.mk (renderJ v)).data = renderJ v from rfl]
  rw [h]

/-! ### The session model (src/lib/auth.ts)

Runtime session values are `Option JValue`: `none` models the absent
(`undefined`) argument, `some JValue.null` models `null`, and any other
`JValue` models a parsed cookie payload (the code casts `JSON.parse`
results to `AuthSession` without a shape check, so every `JValue` can
occur).  Typed construction (`createAuthSession`) works on records that
mirror the TypeScript interfaces. -/

/-- A database user row (`users` table): `avatar_url` is the only nullable
column. -/
structure UserT where
  id : String
  google_id : String
  email : String
  name : String
  avatar_url : Option String
  created_at : String
  updated_at : String

/-- The JSON image of a user row (keys in column/insertion order, which is
what `JSON.stringify` emits). -/
def userToJ (u : UserT) : JValue :=
  .obj [("id", .str u.id), ("google_id", .str u.google_id), ("email", .str u.email),
    ("name", .str u.name),
    ("avatar_url", match u.avatar_url with | some a => .str a | none => .null),
    ("created_at", .str u.created_at), ("updated_at", .str u.updated_at)]

/-- `AuthSession` (src/types.ts): `{ user, accessToken, expiresAt }`. -/
structure AuthSessionT where
  user : UserT
  accessToken : String
  expiresAt : String

def authSessionToJ (s : AuthSessionT) : JValue :=
  .obj [("user", userToJ s.user), ("accessToken", .str s.accessToken),
    ("expiresAt", .str s.expiresAt)]

/-- `createAuthSession(user, accessToken, expiresIn = 3600)`: the expiry is
`new Date(Date.now() + expiresIn * 1000).toISOString()`.  `now` makes the
clock an explicit argument. -/
def createAuthSession (user : UserT) (accessToken : String) (expiresIn : Nat)
    (now : Nat) : AuthSessionT :=
  { user := user, accessToken := accessToken, expiresAt := isoOfMs (now + expiresIn * 1000) }

/-- `new Date(x).getTime()` for a JSON value `x`; `none` models `NaN`.
Strings go through the date parser; numbers are epoch milliseconds;
booleans coerce to 0/1 and `null` to 0; objects and arrays coerce to
strings that are not valid dates, hence `NaN` (the model ignores the
exotic coercions of single-element arrays). -/
def dateMsOf : JValue → Option Int
  | .str s => (parseISO s).map (fun n => (n : Int))
  | .num n => some n
  | .bool b => some (if b then 1 else 0)
  | .null => some 0
  | .arr _ => none
  | .obj _ => none

/-- JS truthiness of a possibly-absent value (`undefined` is falsy). -/
def jTruthyOpt : Option JValue → Bool
  | none => false
  | some s => jTruthy s

/-- `isSessionValid(session)`: false on a falsy session or falsy
`session.expiresAt`, otherwise `Date.now() < new Date(expiresAt).getTime()`
(false when the expiry is `NaN`). -/
def isSessionValid (session : Option JValue) (now : Nat) : Bool :=
  match session with
  | none => false
  | some s =>
    if !jTruthy s then false
    else
      match jGet s "expiresAt" with
      | none => false
      | some e =>
        if !jTruthy e then false
        else
          match dateMsOf e with
          | none => false
          | some exp => decide ((now : Int) < exp)

/-- `isSessionExpired(session)`: the negation of `isSessionValid`. -/
def isSessionExpired (session : Option JValue) (now : Nat) : Bool :=
  !isSessionValid session now

/-- `getSessionTimeRemaining(session)`: 0 on a falsy session or falsy
expiry; otherwise `Math.max(0, Math.floor((expiry - now) / 1000))`, where
an unparseable expiry makes the whole chain `NaN` (`none`), because
`NaN` propagates through `-`, `/`, `Math.floor` and `Math.max`. -/
def getSessionTimeRemaining (session : Option JValue) (now : Nat) : Option Int :=
  match session with
  | none => some 0
  | some s =>
    if !jTruthy s then some 0
    else
      match jGet s "expiresAt" with
      | none => some 0
      | some e =>
        if !jTruthy e then some 0
        else
          match dateMsOf e with
          | none => none
          | some exp => some (max 0 ((exp - (now : Int)).fdiv 1000))

def jIsNull : JValue → Bool
  | .null => true
  | _ => false

def jIsEmptyStr : JValue → Bool
  | .str s => s == ""
  | _ => false

def requiredFields : List String :=
  ["id", "google_id", "email", "name", "created_at", "updated_at"]

/-- `validateUser(user)`: false on a falsy or non-object value (arrays are
`typeof 'object'` but carry none of the named fields); otherwise every
required field must be neither `null`, `undefined` nor the empty string. -/
def validateUser (user : Option JValue) : Bool :=
  match user with
  | none => false
  | some u =>
    if !jTruthy u then false
    else
      match u with
      | .obj _ | .arr _ =>
        requiredFields.all (fun field =>
          match jGet u field with
          | none => false
          | some v => !jIsNull v && !jIsEmptyStr v)
      | _ => false

/-- `session.user` (the code only evaluates this behind truthiness guards,
so the access never throws). -/
def sessionUser (session : Option JValue) : Option JValue :=
  match session with
  | none => none
  | some s => jGet s "user"

/-- `requireValidSession(session)`: the three guard clauses in source
order, each throwing an `AuthenticationError` carried here as its message;
on success it returns `session.user`. -/
def requireValidSession (session : Option JValue) (now : Nat) :
    Except String (Option JValue) :=
  if !jTruthyOpt session then .error "No session provided"
  else if !isSessionValid session now then .error "Session has expired"
  else if !validateUser (sessionUser session) then .error "Invalid user data in session"
  else .ok (sessionUser session)

/-- `getUserFromSession(session)`: `requireValidSession` with the throw
caught and turned into `null`. -/
def getUserFromSession (session : Option JValue) (now : Nat) : Option (Option JValue) :=
  match requireValidSession session now with
  | .ok u => some u
  | .error _ => none

structure CookieOptions where
  httpOnly : Bool
  secure : Bool
  sameSite : String
  maxAge : Nat
  path : String

/-- `getSessionCookieOptions(isProduction = false)`. -/
def getSessionCookieOptions (isProduction : Bool) : CookieOptions :=
  { httpOnly := true, secure := isProduction, sameSite := "lax", maxAge := 3600, path := "/" }

/-- `Array.prototype.join('; ')`. -/
def joinSemi : List String → String
  | [] => ""
  | [p] => p
  | p :: rest => p ++ "; " ++ joinSemi rest

/-- `serializeSessionToCookie(session, isProduction = false)`: starts from
`session=<json>` and pushes one segment per truthy cookie option (a number
option is truthy when nonzero, a string option when non-empty), then joins
with `'; '`. -/
def serializeSessionToCookie (session : AuthSessionT) (isProduction : Bool) : String :=
  let options := getSessionCookieOptions isProduction
  let sessionJson := renderJson (authSessionToJ session)
  let parts0 := ["session=" ++ sessionJson]
  let parts1 := if options.httpOnly then parts0 ++ ["HttpOnly"] else parts0
  let parts2 := if options.secure then parts1 ++ ["Secure"] else parts1
  let parts3 := if options.sameSite ≠ "" then parts2 ++ ["SameSite=" ++ options.sameSite]
    else parts2
  let parts4 := if options.maxAge ≠ 0 then parts3 ++ ["Max-Age=" ++ toString options.maxAge]
    else parts3
  let parts5 := if options.path ≠ "" then parts4 ++ ["Path=" ++ options.path] else parts4
  joinSemi parts5

/-- `parseSessionFromCookie(cookieValue)`: `JSON.parse` inside
`try/catch` (a throw becomes `null`), then the validity filter — an
invalid parsed session also becomes `null`. -/
def parseSessionFromCookie (cookieValue : String) (now : Nat) : Option JValue :=
  match parseJson cookieValue with
  | none => none
  | some session => if isSessionValid (some session) now then some session else none

/-- `createClearSessionCookie()`. -/
def createClearSessionCookie : String :=
  "session=; Path=/; Expires=Thu, 01 Jan 1970 00:00:00 GMT; HttpOnly; SameSite=Lax"

/-! ### The request gate (src/middleware) and the logout route -/

/-- `x || null`. -/
def jsOrNull : Option JValue → JValue
  | some u => if jTruthy u then u else .null
  | none => .null

/-- What the middleware leaves behind for one request: the three
`context.locals` fields, whether it deleted the session cookie, and
whether control reached `next()`. -/
structure GateResult where
  localsSession : Option JValue
  localsUser : JValue
  localsIsAuthenticated : Bool
  clearedCookie : Bool
  reachedNext : Bool
deriving Repr

/-- The middleware `onRequest`: reads the session cookie (`none` when the
cookie is absent), parses it as JSON (`JSON.parse` inside `try/catch`),
validates, deletes the cookie on a malformed or invalid session, then sets
`locals.session`, `locals.user = session?.user || null` and
`locals.isAuthenticated = !!session`, and always returns `next()`. -/
def onRequest (cookie : Option String) (now : Nat) : GateResult :=
  match cookie with
  | none =>
    { localsSession := none, localsUser := .null, localsIsAuthenticated := false,
      clearedCookie := false, reachedNext := true }
  | some raw =>
    match parseJson raw with
    | none =>
      { localsSession := none, localsUser := .null, localsIsAuthenticated := false,
        clearedCookie := true, reachedNext := true }
    | some parsedSession =>
      if isSessionValid (some parsedSession) now then
        { localsSession := some parsedSession,
          localsUser := jsOrNull (jGet parsedSession "user"),
          localsIsAuthenticated := true,
          clearedCookie := false, reachedNext := true }
      else
        { localsSession := none, localsUser := .null, localsIsAuthenticated := false,
          clearedCookie := true, reachedNext := true }

/-- A response as far as the logout route is concerned: where the redirect
points and the `Set-Cookie` header attached to it. -/
structure ResponseT where
  location : String
  setCookie : Option String
deriving Repr

/-- The logout `POST` handler: build the success redirect and attach the
clear-cookie header; if building it throws, build the failure redirect and
still attach the same header (a throw from the second `redirect` call
would propagate, as in the source). -/
def logoutPOST {E : Type} (redirect : String → Except E ResponseT) : Except E ResponseT :=
  match redirect "/?logout=success" with
  | .ok response =>
    .ok { response with setCookie := some "session=; Path=/; Expires=Thu, 01 Jan 1970 00:00:00 GMT; HttpOnly; SameSite=Lax" }
  | .error _ =>
    match redirect "/?error=logout_failed" with
    | .ok response =>
      .ok { response with setCookie := some "session=; Path=/; Expires=Thu, 01 Jan 1970 00:00:00 GMT; HttpOnly; SameSite=Lax" }
    | .error e => .error e

/-! ### The OAuth callback's cookie (src/pages/api/auth/google.ts) -/

/-- `Object.entries(cookieOptions)` with each value coerced by the
template literal (`true`/`false` for booleans, decimal for the number). -/
def cookieOptionEntries (o : CookieOptions) : List (String × String) :=
  [("httpOnly", if o.httpOnly then "true" else "false"),
   ("secure", if o.secure then "true" else "false"),
   ("sameSite", o.sameSite),
   ("maxAge", toString o.maxAge),
   ("path", o.path)]

/-- The `Set-Cookie` value the callback's success path builds:
`` `session=${JSON.stringify(session)}; ${Object.entries(cookieOptions)
  .map(([key, value]) => `${key}=${value}`).join('; ')}` ``
after `createAuthSession(user, tokens.access_token || '', 3600)`. -/
def googleCallbackSetCookie (user : UserT) (accessToken : String) (now : Nat)
    (isProduction : Bool) : String :=
  let session := createAuthSession user accessToken 3600 now
  let cookieOptions := getSessionCookieOptions isProduction
  "session=" ++ renderJson (authSessionToJ session) ++ "; " ++
    joinSemi ((cookieOptionEntries cookieOptions).map (fun kv => kv.1 ++ "=" ++ kv.2))

/-! ### Claim theorems -/

/-- `session.expiresAt` as a lookup (the way the spec's claims speak of
"its expiresAt"). -/
def sessionExpiresAt (session : Option JValue) : Option JValue :=
  match session with
  | none => none
  | some s => jGet s "expiresAt"

theorem isSessionValid_truthy {s : JValue} {now : Nat}
    (h : isSessionValid (some s) now = true) : jTruthy s = true := by
  by_contra hc
  simp only [Bool.not_eq_true] at hc
  simp [isSessionValid, hc] at h

theorem dateMsOf_falsy {e : JValue} {exp : Int} (hte : jTruthy e = false)
    (hd : dateMsOf e = some exp) : exp = 0 := by
  cases e with
  | null => simp [dateMsOf] at hd; omega
  | bool b =>
    cases b with
    | false => simp [dateMsOf] at hd; omega
    | true => simp [jTruthy] at hte
  | num n =>
    simp only [dateMsOf, Option.some.injEq] at hd
    simp only [jTruthy, bne_eq_false_iff_eq] at hte
    omega
  | str s =>
    simp only [jTruthy] at hte
    simp only [bne_eq_false_iff_eq] at hte
    subst hte
    simp [dateMsOf, parseISO, readDatePart, read4, read2, readDigit] at hd
  | arr xs => simp [jTruthy] at hte
  | obj fs => simp [jTruthy] at hte

/-- C4: for every session value and current time, `isSessionValid` returns
false exactly when the session is absent (falsy), its `expiresAt` is
absent, its `expiresAt` does not parse as a date, or the parsed expiry is
at most the current time — and it performs no check of the embedded user,
so a session it reports valid whose user fails `validateUser` is still
rejected by `requireValidSession` with "Invalid user data in session". -/
theorem isSessionValid_false_iff (session : Option JValue) (now : Nat) :
    (isSessionValid session now = false ↔
      (jTruthyOpt session = false ∨ sessionExpiresAt session = none ∨
        (∃ e, sessionExpiresAt session = some e ∧ dateMsOf e = none) ∨
        (∃ e exp, sessionExpiresAt session = some e ∧ dateMsOf e = some exp ∧
          exp ≤ (now : Int)))) ∧
    (∀ s : JValue, isSessionValid (some s) now = true →
      validateUser (sessionUser (some s)) = false →
      requireValidSession (some s) now = .error "Invalid user data in session") := by
  constructor
  · cases session with
    | none => simp [isSessionValid, jTruthyOpt, sessionExpiresAt]
    | some s =>
      by_cases hts : jTruthy s
      · simp only [isSessionValid, hts, Bool.not_true, Bool.false_eq_true, if_false,
          jTruthyOpt, sessionExpiresAt]
        cases hg : jGet s "expiresAt" with
        | none => simp
        | some e =>
          by_cases hte : jTruthy e
          · simp only [hte, Bool.not_true, Bool.false_eq_true, if_false]
            cases hd : dateMsOf e with
            | none => simp [hd]
            | some exp =>
              simp only [decide_eq_false_iff_not, not_lt, Option.some.injEq]
              constructor
              · intro h
                refine Or.inr (Or.inr (Or.inr ⟨e, exp, rfl, hd, h⟩))
              · rintro (h | h | ⟨e', he', hd'⟩ | ⟨e', exp', he', hd', hle⟩)
                · simp at h
                · simp at h
                · subst he'
                  rw [hd] at hd'
                  cases hd'
                · subst he'
                  rw [hd] at hd'
                  injection hd' with hd'
                  omega
          · simp only [Bool.not_eq_true] at hte
            simp only [hte, Bool.not_false, if_true]
            constructor
            · intro _
              cases hd : dateMsOf e with
              | none => exact Or.inr (Or.inr (Or.inl ⟨e, rfl, hd⟩))
              | some exp =>
                have := dateMsOf_falsy hte hd
                subst this
                exact Or.inr (Or.inr (Or.inr ⟨e, 0, rfl, hd, by omega⟩))
            · intro _
              trivial
      · simp only [Bool.not_eq_true] at hts
        simp [isSessionValid, hts, jTruthyOpt]
  · intro s hval huser
    have hts := isSessionValid_truthy hval
    unfold requireValidSession
    simp [jTruthyOpt, hts, hval, huser]

/-- Witness for the `isSessionValid`/`requireValidSession` contrast at a
concrete input: a session with a future expiry but `user: 0`. -/
theorem isSessionValid_false_iff_witness :
    requireValidSession
      (some (.obj [("user", .num 0), ("expiresAt", .str "1970-01-02T00:00:00.000Z")])) 0 =
      .error "Invalid user data in session" := by
  apply (isSessionValid_false_iff
    (some (.obj [("user", .num 0), ("expiresAt", .str "1970-01-02T00:00:00.000Z")])) 0).2
  · rfl
  · rfl

/-- C3: `parseSessionFromCookie` is total (in the model every function is
total; the `try/catch` of the source is the `Option` of `parseJson`):
a JSON parse failure yields `null`, and every non-null result passed the
fused validity filter, so it satisfies `isSessionValid`. -/
theorem parseSessionFromCookie_total (s : String) (now : Nat) :
    (parseJson s = none → parseSessionFromCookie s now = none) ∧
    (∀ j, parseSessionFromCookie s now = some j → parseJson s = some j ∧
      isSessionValid (some j) now = true) ∧
    (parseSessionFromCookie s now = none ∨
      ∃ j, parseSessionFromCookie s now = some j) := by
  refine ⟨?_, ?_, ?_⟩
  · intro h
    simp [parseSessionFromCookie, h]
  · intro j h
    unfold parseSessionFromCookie at h
    cases hp : parseJson s with
    | none => rw [hp] at h; cases h
    | some v =>
      rw [hp] at h
      change (if isSessionValid (some v) now = true then some v else none) = some j at h
      by_cases hv : isSessionValid (some v) now = true
      · rw [if_pos hv] at h
        injection h with h
        subst h
        exact ⟨rfl, hv⟩
      · rw [if_neg hv] at h
        cases h
  · cases h : parseSessionFromCookie s now with
    | none => exact Or.inl rfl
    | some j => exact Or.inr ⟨j, rfl⟩

/-- Witness for C3 at concrete inputs: garbage, the empty string and
valid JSON of the wrong shape all deserialize to `null`. -/
theorem parseSessionFromCookie_total_witness :
    parseSessionFromCookie "not json" 0 = none ∧
    parseSessionFromCookie "" 0 = none ∧
    parseSessionFromCookie "5" 0 = none := by
  refine ⟨(parseSessionFromCookie_total "not json" 0).1 (by rfl),
    (parseSessionFromCookie_total "" 0).1 (by rfl), ?_⟩
  rfl

/-- C5: `requireValidSession` checks, in order: a falsy session (absent:
`null`/`undefined`) fails with "No session provided"; an invalid session
fails with "Session has expired"; a user failing `validateUser` (some
required field among id, google_id, email, name, created_at, updated_at
missing, `null` or the empty string) fails with "Invalid user data in
session"; otherwise the embedded user is returned. -/
theorem requireValidSession_spec (session : Option JValue) (now : Nat) :
    (jTruthyOpt session = false →
      requireValidSession session now = .error "No session provided") ∧
    (jTruthyOpt session = true → isSessionValid session now = false →
      requireValidSession session now = .error "Session has expired") ∧
    (jTruthyOpt session = true → isSessionValid session now = true →
      validateUser (sessionUser session) = false →
      requireValidSession session now = .error "Invalid user data in session") ∧
    (jTruthyOpt session = true → isSessionValid session now = true →
      validateUser (sessionUser session) = true →
      requireValidSession session now = .ok (sessionUser session)) ∧
    (∀ fs : List (String × JValue),
      validateUser (some (.obj fs)) = requiredFields.all (fun field =>
        match lookupLast fs field with
        | none => false
        | some v => !jIsNull v && !jIsEmptyStr v)) := by
  refine ⟨?_, ?_, ?_, ?_, ?_⟩
  · intro h
    simp [requireValidSession, h]
  · intro h1 h2
    simp [requireValidSession, h1, h2]
  · intro h1 h2 h3
    simp [requireValidSession, h1, h2, h3]
  · intro h1 h2 h3
    simp [requireValidSession, h1, h2, h3]
  · intro fs
    simp [validateUser, jTruthy, jGet]

/-- Witness for C5: the three failure messages and the success case at
concrete inputs. -/
theorem requireValidSession_spec_witness :
    requireValidSession none 0 = .error "No session provided" ∧
    requireValidSession (some (.obj [("expiresAt", .str "1970-01-01T00:00:00.000Z")])) 500 =
      .error "Session has expired" ∧
    requireValidSession (some (.obj [("user", .null),
      ("expiresAt", .str "1970-01-02T00:00:00.000Z")])) 0 =
      .error "Invalid user data in session" := by
  refine ⟨(requireValidSession_spec none 0).1 rfl, ?_, ?_⟩
  · exact (requireValidSession_spec _ 500).2.1 rfl rfl
  · exact (requireValidSession_spec _ 0).2.2.1 rfl rfl rfl

/-- C7 counterexample: on a session whose `expiresAt` is a non-empty
string that does not parse as a date, `getSessionTimeRemaining` returns
`NaN` (`Math.max(0, NaN)` is `NaN`), not a non-negative integer. -/
theorem getSessionTimeRemaining_nan :
    getSessionTimeRemaining (some (.obj [("expiresAt", .str "garbage")])) 0 = none := by
  rfl

/-- C7 amended: `getSessionTimeRemaining` returns 0 when the session or
its `expiresAt` is absent (falsy), `max(0, floor((expiry - now)/1000))`
when the expiry parses as a date, and `NaN` (`none`) when the expiry is
present and truthy but does not parse; whenever it returns a number, that
number is a non-negative integer. -/
theorem getSessionTimeRemaining_spec (session : Option JValue) (now : Nat) :
    (jTruthyOpt session = false → getSessionTimeRemaining session now = some 0) ∧
    (∀ s, session = some s → jTruthy s = true →
      (jGet s "expiresAt" = none ∨ ∃ e, jGet s "expiresAt" = some e ∧ jTruthy e = false) →
      getSessionTimeRemaining session now = some 0) ∧
    (∀ s e exp, session = some s → jTruthy s = true → jGet s "expiresAt" = some e →
      jTruthy e = true → dateMsOf e = some exp →
      getSessionTimeRemaining session now = some (max 0 ((exp - (now : Int)).fdiv 1000))) ∧
    (∀ s e, session = some s → jTruthy s = true → jGet s "expiresAt" = some e →
      jTruthy e = true → dateMsOf e = none →
      getSessionTimeRemaining session now = none) ∧
    (∀ r : Int, getSessionTimeRemaining session now = some r → 0 ≤ r) := by
  refine ⟨?_, ?_, ?_, ?_, ?_⟩
  · intro h
    cases session with
    | none => rfl
    | some s => simp [getSessionTimeRemaining, jTruthyOpt.eq_2] at h ⊢; simp [h]
  · rintro s rfl hts (hg | ⟨e, hg, hte⟩)
    · simp [getSessionTimeRemaining, hts, hg]
    · simp [getSessionTimeRemaining, hts, hg, hte]
  · rintro s e exp rfl hts hg hte hd
    simp [getSessionTimeRemaining, hts, hg, hte, hd]
  · rintro s e rfl hts hg hte hd
    simp [getSessionTimeRemaining, hts, hg, hte, hd]
  · intro r h
    cases session with
    | none =>
      unfold getSessionTimeRemaining at h
      injection h with h
      omega
    | some s =>
      unfold getSessionTimeRemaining at h
      dsimp only at h
      by_cases hts : jTruthy s
      · rw [if_neg (by simp [hts])] at h
        cases hg : jGet s "expiresAt" with
        | none => rw [hg] at h; injection h with h; omega
        | some e =>
          rw [hg] at h
          dsimp only at h
          by_cases hte : jTruthy e
          · rw [if_neg (by simp [hte])] at h
            cases hd : dateMsOf e with
            | none => rw [hd] at h; cases h
            | some exp =>
              rw [hd] at h
              dsimp only at h
              injection h with h
              omega
          · simp only [Bool.not_eq_true] at hte
            rw [if_pos (by simp [hte])] at h
            injection h with h
            omega
      · simp only [Bool.not_eq_true] at hts
        rw [if_pos (by simp [hts])] at h
        injection h with h
        omega

/-- Witness for the C7 amended claim at concrete inputs. -/
theorem getSessionTimeRemaining_spec_witness :
    getSessionTimeRemaining none 0 = some 0 ∧
    getSessionTimeRemaining (some (.obj [("expiresAt", .str "1970-01-01T00:00:05.000Z")])) 0 =
      some 5 := by
  constructor
  · exact (getSessionTimeRemaining_spec none 0).1 rfl
  · have h := (getSessionTimeRemaining_spec
      (some (.obj [("expiresAt", .str "1970-01-01T00:00:05.000Z")])) 0).2.2.1
      (.obj [("expiresAt", .str "1970-01-01T00:00:05.000Z")])
      (.str "1970-01-01T00:00:05.000Z") 5000 rfl rfl (by rfl) rfl (by rfl)
    rw [h]
    rfl

/-- C10: evaluated at the same instant, a positive remaining time implies
the session is valid; the converse fails: a session whose expiry lies
strictly between now and now + 1000 ms is valid while its remaining time
is 0. -/
theorem getSessionTimeRemaining_pos_valid (session : Option JValue) (now : Nat) :
    (∀ r : Int, getSessionTimeRemaining session now = some r → 0 < r →
      isSessionValid session now = true) ∧
    (∃ s : JValue, isSessionValid (some s) now = true ∧
      getSessionTimeRemaining (some s) now = some 0) := by
  constructor
  · intro r h hr
    cases session with
    | none =>
      unfold getSessionTimeRemaining at h
      injection h with h
      omega
    | some s =>
      unfold getSessionTimeRemaining at h
      dsimp only at h
      by_cases hts : jTruthy s
      · rw [if_neg (by simp [hts])] at h
        cases hg : jGet s "expiresAt" with
        | none => rw [hg] at h; injection h with h; omega
        | some e =>
          rw [hg] at h
          dsimp only at h
          by_cases hte : jTruthy e
          · rw [if_neg (by simp [hte])] at h
            cases hd : dateMsOf e with
            | none => rw [hd] at h; cases h
            | some exp =>
              rw [hd] at h
              dsimp only at h
              injection h with h
              have hfd : (exp - (now : Int)).fdiv 1000 = (exp - (now : Int)) / 1000 :=
                Int.fdiv_eq_ediv _ (by norm_num)
              rw [hfd] at h
              have hlt : (now : Int) < exp := by omega
              simp [isSessionValid, hts, hg, hte, hd, hlt]
          · simp only [Bool.not_eq_true] at hte
            rw [if_pos (by simp [hte])] at h
            injection h with h
            omega
      · simp only [Bool.not_eq_true] at hts
        rw [if_pos (by simp [hts])] at h
        injection h with h
        omega
  · refine ⟨.obj [("expiresAt", .num ((now : Int) + 500))], ?_, ?_⟩
    · have hg : jGet (.obj [("expiresAt", .num ((now : Int) + 500))]) "expiresAt" =
          some (.num ((now : Int) + 500)) := by
        simp [jGet, lookupLast]
      have hte : jTruthy (JValue.num ((now : Int) + 500)) = true := by
        simp [jTruthy]
        omega
      have hlt : (now : Int) < (now : Int) + 500 := by omega
      simp [isSessionValid, jTruthy, hg, hte, dateMsOf, hlt]
      omega
    · have hg : jGet (.obj [("expiresAt", .num ((now : Int) + 500))]) "expiresAt" =
          some (.num ((now : Int) + 500)) := by
        simp [jGet, lookupLast]
      have hte : jTruthy (JValue.num ((now : Int) + 500)) = true := by
        simp [jTruthy]
        omega
      have hfd : ((now : Int) + 500 - (now : Int)).fdiv 1000 =
          ((now : Int) + 500 - (now : Int)) / 1000 := Int.fdiv_eq_ediv _ (by norm_num)
      simp [getSessionTimeRemaining, jTruthy, hg, hte, dateMsOf, hfd]

/-- Witness for C10 at a concrete input: one hour remaining implies
validity. -/
theorem getSessionTimeRemaining_pos_valid_witness :
    isSessionValid (some (.obj [("expiresAt", .str "1970-01-01T01:00:00.000Z")])) 0 = true := by
  exact (getSessionTimeRemaining_pos_valid
    (some (.obj [("expiresAt", .str "1970-01-01T01:00:00.000Z")])) 0).1 3600 (by rfl)
    (by norm_num)

/-- A concrete user and session used by the concrete-input theorems. -/
def sampleUser : UserT := ⟨"u", "g", "e", "n", none, "c", "d"⟩

def sampleSession : AuthSessionT := ⟨sampleUser, "t", "1970-01-01T01:00:00.000Z"⟩

/-- C6 counterexample: the serialized cookie writes its same-site segment
as `SameSite=lax` — the lowercase option value — not the claimed wire
format `SameSite=Lax`, as evaluated on a concrete session. -/
theorem serializeSessionToCookie_lax :
    serializeSessionToCookie sampleSession false =
      "session=\x7b\x22user\x22:\x7b\x22id\x22:\x22u\x22,\x22google_id\x22:\x22g\x22,\x22email\x22:\x22e\x22,\x22name\x22:\x22n\x22,\x22avatar_url\x22:null,\x22created_at\x22:\x22c\x22,\x22updated_at\x22:\x22d\x22\x7d,\x22accessToken\x22:\x22t\x22,\x22expiresAt\x22:\x221970-01-01T01:00:00.000Z\x22\x7d; HttpOnly; SameSite=lax; Max-Age=3600; Path=/" ∧
    serializeSessionToCookie sampleSession false ≠
      "session=\x7b\x22user\x22:\x7b\x22id\x22:\x22u\x22,\x22google_id\x22:\x22g\x22,\x22email\x22:\x22e\x22,\x22name\x22:\x22n\x22,\x22avatar_url\x22:null,\x22created_at\x22:\x22c\x22,\x22updated_at\x22:\x22d\x22\x7d,\x22accessToken\x22:\x22t\x22,\x22expiresAt\x22:\x221970-01-01T01:00:00.000Z\x22\x7d; HttpOnly; SameSite=Lax; Max-Age=3600; Path=/" := by
  constructor
  · rfl
  · decide

/-- C6 amended: for every session and production flag the cookie is
exactly `session=<json>; HttpOnly; Secure?; SameSite=lax; Max-Age=3600;
Path=/` — the segments in that order joined by `'; '`, `<json>` the JSON
encoding of the session, the `Secure` segment present iff the production
flag is set, and the fixed `Max-Age` 3600; the same-site segment is
lowercase `lax`, not the `Lax` spelling the claim states. -/
theorem serialize_format_aux (session : AuthSessionT) : ∀ isProduction : Bool,
    serializeSessionToCookie session isProduction =
      "session=" ++ renderJson (authSessionToJ session) ++ "; HttpOnly" ++
      (if isProduction then "; Secure" else "") ++ "; SameSite=lax; Max-Age=3600; Path=/"
  | true => by
    unfold serializeSessionToCookie getSessionCookieOptions
    simp [joinSemi, String.append_assoc, show toString (3600 : Nat) = "3600" from rfl]
  | false => by
    unfold serializeSessionToCookie getSessionCookieOptions
    simp [joinSemi, String.append_assoc, show toString (3600 : Nat) = "3600" from rfl]

theorem serializeSessionToCookie_format (session : AuthSessionT) (isProduction : Bool) :
    serializeSessionToCookie session isProduction =
      "session=" ++ renderJson (authSessionToJ session) ++ "; HttpOnly" ++
      (if isProduction then "; Secure" else "") ++ "; SameSite=lax; Max-Age=3600; Path=/" :=
  serialize_format_aux session isProduction

theorem google_cookie_aux (user : UserT) (accessToken : String) (now : Nat) :
    ∀ isProduction : Bool,
      googleCallbackSetCookie user accessToken now isProduction =
        "session=" ++ renderJson (authSessionToJ (createAuthSession user accessToken 3600 now)) ++
        (if isProduction then "; httpOnly=true; secure=true; sameSite=lax; maxAge=3600; path=/"
          else "; httpOnly=true; secure=false; sameSite=lax; maxAge=3600; path=/")
  | true => by
    unfold googleCallbackSetCookie getSessionCookieOptions cookieOptionEntries
    simp [joinSemi, String.append_assoc, show toString (3600 : Nat) = "3600" from rfl]
  | false => by
    unfold googleCallbackSetCookie getSessionCookieOptions cookieOptionEntries
    simp [joinSemi, String.append_assoc, show toString (3600 : Nat) = "3600" from rfl]

/-- C9: the OAuth callback's success path builds its `Set-Cookie` from the
raw cookie-option entries as `key=value` pairs —
`session=<json>; httpOnly=true; secure=<true|false>; sameSite=lax;
maxAge=3600; path=/` — which differs from the attribute wire format
`serializeSessionToCookie` would produce (the callback never calls it). -/
theorem googleCallbackSetCookie_spec (user : UserT) (accessToken : String) (now : Nat)
    (isProduction : Bool) :
    googleCallbackSetCookie user accessToken now isProduction =
      "session=" ++ renderJson (authSessionToJ (createAuthSession user accessToken 3600 now)) ++
      "; httpOnly=true; secure=" ++ (if isProduction then "true" else "false") ++
      "; sameSite=lax; maxAge=3600; path=/" ∧
    googleCallbackSetCookie user accessToken now isProduction ≠
      serializeSessionToCookie (createAuthSession user accessToken 3600 now) isProduction := by
  have l0 : ("" : String).length = 0 := rfl
  have l1 : ("session=" : String).length = 8 := rfl
  have l2 : ("; HttpOnly" : String).length = 10 := rfl
  have l3 : ("; Secure" : String).length = 8 := rfl
  have l4 : ("; SameSite=lax; Max-Age=3600; Path=/" : String).length = 36 := rfl
  have l5 : ("; httpOnly=true; secure=true; sameSite=lax; maxAge=3600; path=/" : String).length =
    63 := rfl
  have l6 : ("; httpOnly=true; secure=false; sameSite=lax; maxAge=3600; path=/" : String).length =
    64 := rfl
  cases isProduction with
  | false =>
    have hg := google_cookie_aux user accessToken now false
    have hs := serialize_format_aux (createAuthSession user accessToken 3600 now) false
    simp only [Bool.false_eq_true, if_false] at hg hs
    constructor
    · rw [hg]
      simp [String.append_assoc]
    · intro h
      rw [hg, hs] at h
      have hl := congrArg String.length h
      simp only [String.length_append, String.append_assoc] at hl
      rw [l1, l4, l2, l6, l0] at hl
      omega
  | true =>
    have hg := google_cookie_aux user accessToken now true
    have hs := serialize_format_aux (createAuthSession user accessToken 3600 now) true
    simp only [if_true] at hg hs
    constructor
    · rw [hg]
      simp [String.append_assoc]
    · intro h
      rw [hg, hs] at h
      have hl := congrArg String.length h
      simp only [String.length_append, String.append_assoc] at hl
      rw [l1, l4, l2, l3, l5] at hl
      omega

/-- C8: `createClearSessionCookie` is exactly the fixed clear-cookie
string, and the logout POST handler attaches exactly that string as the
`Set-Cookie` header of its response both on the normal path and when the
first call to the redirect helper throws. -/
theorem logout_clears_cookie {E : Type} (redirect : String → Except E ResponseT) :
    createClearSessionCookie =
      "session=; Path=/; Expires=Thu, 01 Jan 1970 00:00:00 GMT; HttpOnly; SameSite=Lax" ∧
    (∀ r, redirect "/?logout=success" = .ok r →
      logoutPOST redirect = .ok { r with setCookie := some createClearSessionCookie }) ∧
    (∀ e r, redirect "/?logout=success" = .error e →
      redirect "/?error=logout_failed" = .ok r →
      logoutPOST redirect = .ok { r with setCookie := some createClearSessionCookie }) := by
  refine ⟨rfl, ?_, ?_⟩
  · intro r h
    unfold logoutPOST
    rw [h]
    dsimp only
    rfl
  · intro e r h1 h2
    unfold logoutPOST
    rw [h1]
    dsimp only
    rw [h2]
    dsimp only
    rfl

/-- Witness for C8 with concrete redirect helpers: one that succeeds and
one that throws on the first call. -/
theorem logout_clears_cookie_witness :
    logoutPOST (fun loc => (.ok ⟨loc, none⟩ : Except Unit ResponseT)) =
      .ok ⟨"/?logout=success", some createClearSessionCookie⟩ ∧
    logoutPOST (fun loc => if loc = "/?logout=success" then (.error () : Except Unit ResponseT)
      else .ok ⟨loc, none⟩) =
      .ok ⟨"/?error=logout_failed", some createClearSessionCookie⟩ := by
  constructor
  · exact (logout_clears_cookie (fun loc => (.ok ⟨loc, none⟩ : Except Unit ResponseT))).2.1
      ⟨"/?logout=success", none⟩ rfl
  · exact (logout_clears_cookie (fun loc =>
      if loc = "/?logout=success" then (.error () : Except Unit ResponseT)
      else .ok ⟨loc, none⟩)).2.2 () ⟨"/?error=logout_failed", none⟩ (by rfl) (by rfl)

theorem textual_authSession (s : AuthSessionT) : textualJ (authSessionToJ s) = true := by
  cases hu : s.user.avatar_url <;>
    simp [authSessionToJ, userToJ, textualJ, textualF, hu]

theorem jGet_authSession_expiresAt (s : AuthSessionT) :
    jGet (authSessionToJ s) "expiresAt" = some (.str s.expiresAt) := by
  simp [authSessionToJ, jGet, lookupLast]

theorem isoOfMs_ne_empty (t : Nat) : isoOfMs t ≠ "" := by
  intro hcon
  have hlen := congrArg String.length hcon
  unfold isoOfMs at hlen
  simp only [String.length] at hlen
  simp [pad4, List.length_append] at hlen

/-- A session freshly created with TTL 3600 is valid at its creation
instant (in-range instants only: the model's date strings carry 4-digit
years). -/
theorem createAuthSession_valid (user : UserT) (accessToken : String) (now : Nat)
    (h : now + 3600000 ≤ 253402300799999) :
    isSessionValid (some (authSessionToJ (createAuthSession user accessToken 3600 now))) now =
      true := by
  have hexp : (createAuthSession user accessToken 3600 now).expiresAt =
      isoOfMs (now + 3600000) := rfl
  have hg := jGet_authSession_expiresAt (createAuthSession user accessToken 3600 now)
  rw [hexp] at hg
  have hne : isoOfMs (now + 3600000) ≠ "" := isoOfMs_ne_empty _
  have hiso : parseISO (isoOfMs (now + 3600000)) = some (now + 3600000) :=
    parseISO_isoOfMs h
  have htr : jTruthy (authSessionToJ (createAuthSession user accessToken 3600 now)) = true := by
    simp [authSessionToJ, jTruthy]
  have htre : jTruthy (JValue.str (isoOfMs (now + 3600000))) = true := by
    simp only [jTruthy]
    exact bne_iff_ne.mpr hne
  have hdm : dateMsOf (JValue.str (isoOfMs (now + 3600000))) =
      some (((now + 3600000 : Nat) : Int)) := by
    rw [show dateMsOf (JValue.str (isoOfMs (now + 3600000))) =
      (parseISO (isoOfMs (now + 3600000))).map (fun n => (n : Int)) from rfl, hiso]
    rfl
  unfold isSessionValid
  dsimp only
  rw [htr, hg]
  simp only [Bool.not_true, Bool.false_eq_true, if_false]
  rw [htre]
  simp only [Bool.not_true, Bool.false_eq_true, if_false]
  rw [hdm]
  simp only [decide_eq_true_eq]
  omega

/-- C1 counterexample: `serializeSessionToCookie` emits the whole
`Set-Cookie` string (payload plus attribute segments), which is not valid
JSON, so feeding its output to `parseSessionFromCookie` yields `null`
rather than the original session — here for a session created with TTL
3600 at instant 0. -/
theorem serialize_then_parse_fails :
    parseSessionFromCookie
      (serializeSessionToCookie (createAuthSession sampleUser "t" 3600 0) false) 0 = none := by
  rfl

/-- C1 amended: the round trip holds through the cookie's value — the JSON
payload `JSON.stringify(session)` (the part of the serialized cookie after
`session=` and before the attribute segments): for every session created
with TTL 3600, parsing that payload back at the creation instant returns
the session unchanged, and the result is valid. -/
theorem parseSession_roundtrip (user : UserT) (accessToken : String) (now : Nat)
    (h : now + 3600000 ≤ 253402300799999) :
    parseSessionFromCookie
      (renderJson (authSessionToJ (createAuthSession user accessToken 3600 now))) now =
      some (authSessionToJ (createAuthSession user accessToken 3600 now)) ∧
    isSessionValid (some (authSessionToJ (createAuthSession user accessToken 3600 now))) now =
      true := by
  have hval := createAuthSession_valid user accessToken now h
  have hparse :=
    parseJson_renderJson (textual_authSession (createAuthSession user accessToken 3600 now))
  constructor
  · unfold parseSessionFromCookie
    rw [hparse]
    dsimp only
    rw [if_pos hval]
  · exact hval

/-- Witness for the C1 amended round trip at a concrete session. -/
theorem parseSession_roundtrip_witness :
    parseSessionFromCookie
      (renderJson (authSessionToJ (createAuthSession sampleUser "t" 3600 0))) 0 =
      some (authSessionToJ (createAuthSession sampleUser "t" 3600 0)) :=
  (parseSession_roundtrip sampleUser "t" 0 (by norm_num)).1

/-- C2 counterexample: a cookie that parses and is valid but embeds the
falsy user `0` authenticates the request, yet `locals.user` is `null`
(`session?.user || null`), not the embedded user — so "locals.user is its
embedded user" fails as stated. -/
theorem onRequest_falsy_user :
    (onRequest (some "\x7b\x22user\x22:0,\x22expiresAt\x22:\x221970-01-02T00:00:00.000Z\x22\x7d")
      0).localsIsAuthenticated = true ∧
    (onRequest (some "\x7b\x22user\x22:0,\x22expiresAt\x22:\x221970-01-02T00:00:00.000Z\x22\x7d")
      0).localsSession =
      some (.obj [("user", .num 0), ("expiresAt", .str "1970-01-02T00:00:00.000Z")]) ∧
    jGet (.obj [("user", .num 0), ("expiresAt", .str "1970-01-02T00:00:00.000Z")]) "user" =
      some (.num 0) ∧
    (onRequest (some "\x7b\x22user\x22:0,\x22expiresAt\x22:\x221970-01-02T00:00:00.000Z\x22\x7d")
      0).localsUser = .null ∧
    JValue.null ≠ JValue.num 0 := by
  refine ⟨rfl, rfl, rfl, rfl, fun hc => JValue.noConfusion hc⟩

/-- C2 amended: after the middleware runs, `isAuthenticated` is true iff
the session cookie was present, parsed as JSON, and satisfied
`isSessionValid`; when true, `locals.session` is the parsed session and
`locals.user` is its embedded user when that user is truthy and `null`
otherwise; a present but malformed or invalid cookie is deleted and all
locals are absent/false; with no cookie nothing is deleted; and in every
case the request proceeds to the downstream handler. -/
theorem onRequest_spec (cookie : Option String) (now : Nat) :
    ((onRequest cookie now).reachedNext = true) ∧
    ((onRequest cookie now).localsIsAuthenticated = true ↔
      ∃ v j, cookie = some v ∧ parseJson v = some j ∧ isSessionValid (some j) now = true) ∧
    (∀ v j, cookie = some v → parseJson v = some j → isSessionValid (some j) now = true →
      (onRequest cookie now).localsSession = some j ∧
      (onRequest cookie now).localsUser = jsOrNull (jGet j "user")) ∧
    (∀ v, cookie = some v →
      (parseJson v = none ∨ (∃ j, parseJson v = some j ∧ isSessionValid (some j) now = false)) →
      (onRequest cookie now).clearedCookie = true ∧
      (onRequest cookie now).localsSession = none ∧
      (onRequest cookie now).localsUser = .null ∧
      (onRequest cookie now).localsIsAuthenticated = false) ∧
    (cookie = none → (onRequest cookie now).clearedCookie = false) := by
  refine ⟨?_, ?_, ?_, ?_, ?_⟩
  · cases cookie with
    | none => rfl
    | some raw =>
      unfold onRequest
      dsimp only
      cases hp : parseJson raw with
      | none => rfl
      | some j =>
        dsimp only
        by_cases hv : isSessionValid (some j) now = true
        · rw [if_pos hv]
        · rw [if_neg hv]
  · cases cookie with
    | none =>
      simp [onRequest]
    | some raw =>
      unfold onRequest
      dsimp only
      cases hp : parseJson raw with
      | none =>
        simp only [Option.some.injEq]
        constructor
        · intro hfalse
          cases hfalse
        · rintro ⟨v, j, rfl, hj, _⟩
          rw [hp] at hj
          cases hj
      | some j =>
        dsimp only
        by_cases hv : isSessionValid (some j) now = true
        · rw [if_pos hv]
          simp only [Option.some.injEq, true_iff]
          exact ⟨raw, j, rfl, hp, hv⟩
        · rw [if_neg hv]
          simp only [Option.some.injEq]
          constructor
          · intro hfalse
            cases hfalse
          · rintro ⟨v, j2, hveq, hj2, hval2⟩
            subst hveq
            rw [hp] at hj2
            injection hj2 with hj2
            subst hj2
            exact absurd hval2 hv
  · intro v j hc hp hv
    subst hc
    unfold onRequest
    dsimp only
    rw [hp]
    dsimp only
    rw [if_pos hv]
    exact ⟨rfl, rfl⟩
  · intro v hc hbad
    subst hc
    unfold onRequest
    dsimp only
    rcases hbad with hp | ⟨j, hp, hval⟩
    · rw [hp]
      exact ⟨rfl, rfl, rfl, rfl⟩
    · rw [hp]
      dsimp only
      rw [if_neg (by rw [hval]; exact Bool.false_ne_true)]
      exact ⟨rfl, rfl, rfl, rfl⟩
  · intro hc
    subst hc
    rfl

/-- Witness for C2 at concrete inputs: no cookie means no deletion and no
authentication. -/
theorem onRequest_spec_witness :
    (onRequest none 7).clearedCookie = false ∧
    (onRequest none 7).reachedNext = true := by
  exact ⟨(onRequest_spec none 7).2.2.2.2 rfl, (onRequest_spec none 7).1⟩

/-- Witness for C9 at a concrete login: the callback cookie uses the raw
option names and differs from the serializer's output. -/
theorem googleCallbackSetCookie_spec_witness :
    googleCallbackSetCookie sampleUser "t" 0 false =
      "session=" ++ renderJson (authSessionToJ (createAuthSession sampleUser "t" 3600 0)) ++
      "; httpOnly=true; secure=" ++ "false" ++ "; sameSite=lax; maxAge=3600; path=/" ∧
    googleCallbackSetCookie sampleUser "t" 0 false ≠
      serializeSessionToCookie (createAuthSession sampleUser "t" 3600 0) false := by
  have h := googleCallbackSetCookie_spec sampleUser "t" 0 false
  exact ⟨h.1, h.2⟩
